import Mathlib

/-
Shallow embedding of the note-collection manager of src/src/App.tsx
(my-notes-ssr): the Note data model, the StorageService persistence
gateway, the NotesModel collection operations (add, update, delete,
togglePin, search, getAllTags, sortNotes), the NotesController
notification layer, and the note-editor submit handler.

Timestamps (Date.now()) are modelled as an explicit `now : Nat`
parameter; the random id suffix as an explicit `rand : String`
parameter.  JS strings are Lean Strings; case folding
(String.prototype.toLowerCase) is modelled character-wise; the default
Array.prototype.sort comparison on strings and localeCompare are
modelled as lexicographic comparison on the character sequence.
JS Array.prototype.sort is a stable sort, modelled by insertion sort.
-/

/-- The seven-colour palette of the app (type NoteColor). -/
inductive NoteColor
  | yellow | green | blue | purple | pink | orange | gray
  deriving DecidableEq, Repr

/-- The four sort criteria (type SortOption). -/
inductive SortOption
  | dateDesc | dateAsc | titleAsc | titleDesc
  deriving DecidableEq, Repr

/-- The Note record (interface Note). -/
structure Note where
  id : String
  title : String
  content : String
  color : NoteColor
  isPinned : Bool
  tags : List String
  createdAt : Nat
  updatedAt : Nat
  deriving DecidableEq, Repr

/-- The fields of a draft note: Omit<Note, 'id' | 'createdAt' | 'updatedAt'>. -/
structure NoteDraft where
  title : String
  content : String
  color : NoteColor
  isPinned : Bool
  tags : List String
  deriving DecidableEq, Repr

/-- A Partial<Note>: every field optional. -/
structure NotePatch where
  id : Option String := none
  title : Option String := none
  content : Option String := none
  color : Option NoteColor := none
  isPinned : Option Bool := none
  tags : Option (List String) := none
  createdAt : Option Nat := none
  updatedAt : Option Nat := none
  deriving DecidableEq, Repr

/-- Does the character list start with the given needle?  (Helper for
JS String.prototype.includes.) -/
def leadsWith : List Char → List Char → Bool
  | [], _ => true
  | _ :: _, [] => false
  | a :: as, b :: bs => a == b && leadsWith as bs

/-- Does the needle occur as a contiguous segment of the haystack?
(JS String.prototype.includes on the underlying character lists.) -/
def hasSubstr (needle : List Char) : List Char → Bool
  | [] => needle.isEmpty
  | c :: rest => leadsWith needle (c :: rest) || hasSubstr needle rest

/-- hay.includes(needle) of JS. -/
def strIncludes (hay needle : String) : Bool :=
  hasSubstr needle.data hay.data

/-- s.toLowerCase() of JS, modelled character-wise. -/
def lowerStr (s : String) : String :=
  ⟨s.data.map Char.toLower⟩

/-- s.trim() of JS: strip leading and trailing whitespace. -/
def jsTrim (s : String) : String :=
  ⟨((s.data.dropWhile Char.isWhitespace).reverse.dropWhile Char.isWhitespace).reverse⟩

/-- Lexicographic comparison of character lists (the model of the
default Array.prototype.sort string comparison and of localeCompare). -/
def lexLe : List Char → List Char → Bool
  | [], _ => true
  | _ :: _, [] => false
  | a :: as, b :: bs =>
    if a < b then true else if b < a then false else lexLe as bs

/-- Boolean string comparison built on lexLe. -/
def strLeb (a b : String) : Bool :=
  lexLe a.data b.data

/-- Propositional form of strLeb. -/
def strLe (a b : String) : Prop :=
  strLeb a b = true

instance : DecidableRel strLe :=
  fun a b => inferInstanceAs (Decidable (strLeb a b = true))

/-- NotesModel.addNote: builds the new note with a timestamp-plus-random
id and createdAt = updatedAt = now, and unshifts it onto the list.  No
validation of any kind is performed here. -/
def makeId (now : Nat) (rand : String) : String :=
  "note_" ++ toString now ++ "_" ++ rand

/-- NotesModel.addNote, returning the created note and the new list. -/
def addNote (now : Nat) (rand : String) (draft : NoteDraft) (notes : List Note) :
    Note × List Note :=
  let newNote : Note :=
    { id := makeId now rand, title := draft.title, content := draft.content,
      color := draft.color, isPinned := draft.isPinned, tags := draft.tags,
      createdAt := now, updatedAt := now }
  (newNote, newNote :: notes)

/-- The spread merge of updateNote: every field supplied by the patch
replaces the existing one. -/
def applyPatch (n : Note) (p : NotePatch) : Note :=
  { id := p.id.getD n.id, title := p.title.getD n.title,
    content := p.content.getD n.content, color := p.color.getD n.color,
    isPinned := p.isPinned.getD n.isPinned, tags := p.tags.getD n.tags,
    createdAt := p.createdAt.getD n.createdAt,
    updatedAt := p.updatedAt.getD n.updatedAt }

/-- NotesModel.updateNote: findIndex by id, then replace the note at
that index by the spread of the old note, the updates, and
updatedAt = now (the now-field wins over any supplied updatedAt). -/
def updateFirst (now : Nat) (id : String) (p : NotePatch) :
    List Note → Option Note × List Note
  | [] => (none, [])
  | n :: rest =>
    if n.id == id then
      let merged := { applyPatch n p with updatedAt := now }
      (some merged, merged :: rest)
    else
      let res := updateFirst now id p rest
      (res.1, n :: res.2)

/-- NotesModel.updateNote on the whole list. -/
def updateNote (now : Nat) (notes : List Note) (id : String) (p : NotePatch) :
    Option Note × List Note :=
  updateFirst now id p notes

/-- NotesModel.deleteNote: filter out the id, report whether the length
shrank. -/
def deleteNote (notes : List Note) (id : String) : Bool × List Note :=
  let remaining := notes.filter fun n => !(n.id == id)
  (remaining.length < notes.length, remaining)

/-- In-place mutation of the first note with the given id (the object
found by Array.prototype.find), leaving the array structure alone. -/
def setFirst (id : String) (n2 : Note) : List Note → List Note
  | [] => []
  | m :: rest => if m.id == id then n2 :: rest else m :: setFirst id n2 rest

/-- NotesModel.togglePin: find the note, flip isPinned and refresh
updatedAt in place; only if the note is now pinned, remove it and
unshift it to the front. -/
def togglePin (now : Nat) (notes : List Note) (id : String) :
    Option Note × List Note :=
  match notes.find? (fun n => n.id == id) with
  | none => (none, notes)
  | some n =>
    let n2 := { n with isPinned := !n.isPinned, updatedAt := now }
    if n2.isPinned then
      (some n2, n2 :: notes.filter fun m => !(m.id == id))
    else
      (some n2, setFirst id n2 notes)

/-- NotesModel.searchNotes predicate: case-insensitive substring match
against title, content, and each tag. -/
def noteMatches (term : String) (n : Note) : Bool :=
  let lowerTerm := lowerStr term
  strIncludes (lowerStr n.title) lowerTerm ||
    strIncludes (lowerStr n.content) lowerTerm ||
    n.tags.any fun tag => strIncludes (lowerStr tag) lowerTerm

/-- NotesModel.searchNotes. -/
def searchNotes (notes : List Note) (term : String) : List Note :=
  notes.filter (noteMatches term)

/-- NotesModel.filterByColor. -/
def filterByColor (notes : List Note) (color : NoteColor) : List Note :=
  notes.filter fun n => n.color == color

/-- NotesModel.filterByTag. -/
def filterByTag (notes : List Note) (tag : String) : List Note :=
  notes.filter fun n => n.tags.contains tag

/-- The Set<string> accumulation of getAllTags: first-occurrence
deduplication, exactly as written (no case normalization). -/
def dedupTags (notes : List Note) : List String :=
  notes.foldl
    (fun acc n => n.tags.foldl (fun a t => if a.contains t then a else a ++ [t]) acc)
    []

/-- NotesModel.getAllTags: Array.from(set).sort() with the default
string comparison. -/
def getAllTags (notes : List Note) : List String :=
  List.insertionSort strLe (dedupTags notes)

/-- The comparator of NotesModel.sortNotes for each criterion. -/
def sortRel : SortOption → Note → Note → Prop
  | .dateDesc => fun a b => b.updatedAt ≤ a.updatedAt
  | .dateAsc => fun a b => a.updatedAt ≤ b.updatedAt
  | .titleAsc => fun a b => strLe a.title b.title
  | .titleDesc => fun a b => strLe b.title a.title

instance (s : SortOption) : DecidableRel (sortRel s) :=
  fun a b =>
    match s with
    | .dateDesc => Nat.decLe b.updatedAt a.updatedAt
    | .dateAsc => Nat.decLe a.updatedAt b.updatedAt
    | .titleAsc => inferInstanceAs (Decidable (strLeb a.title b.title = true))
    | .titleDesc => inferInstanceAs (Decidable (strLeb b.title a.title = true))

/-- The sortFunction closure of sortNotes: a stable sort of the array
by the chosen comparator. -/
def sortFunction (s : SortOption) (arr : List Note) : List Note :=
  List.insertionSort (sortRel s) arr

/-- NotesModel.sortNotes: split into pinned and unpinned, sort each,
concatenate pinned-then-unpinned. -/
def sortNotes (notes : List Note) (s : SortOption) : List Note :=
  let pinned := notes.filter fun n => n.isPinned
  let unpinned := notes.filter fun n => !n.isPinned
  sortFunction s pinned ++ sortFunction s unpinned

/-- NoteEditorModal.handleSubmit: refuse a draft whose trimmed title is
empty, otherwise emit the draft with title and content trimmed. -/
def handleSubmit (title content : String) (color : NoteColor) (notePinned : Bool)
    (tags : List String) : Option NoteDraft :=
  if jsTrim title = "" then none
  else
    some { title := jsTrim title, content := jsTrim content, color := color,
           isPinned := notePinned, tags := tags }

/-- Observable state of a NotesController: the model's list, the number
of notification rounds fired, and the log of whole-collection storage
writes (NotesModel.syncToStorage calls). -/
structure CtrlState where
  notes : List Note
  notifyCount : Nat
  persistLog : List (List Note)
  deriving DecidableEq, Repr

/-- NotesController.updateNote: run the model update, then notify()
unconditionally; notify() fans out to the listeners and calls
syncToStorage, which persists the (possibly unchanged) collection. -/
def ctrlUpdateNote (now : Nat) (id : String) (p : NotePatch) (st : CtrlState) :
    CtrlState :=
  let res := updateNote now st.notes id p
  { notes := res.2, notifyCount := st.notifyCount + 1,
    persistLog := st.persistLog ++ [res.2] }

/-- NotesController.subscribe on the listener Set, in insertion order:
adding a present listener is a no-op. -/
def subscribeListener (ls : List Nat) (id : Nat) : List Nat :=
  if ls.contains id then ls else ls ++ [id]

/-- One notification round: this.listeners.forEach(l => l()).  A JS
Set iterates live, in insertion order: an entry deleted before being
visited is skipped.  Handlers here may only delete listeners
(unsubscribe); spec gives, for each handler, the listeners its call
unsubscribes.  Returns the invocation log of the round. -/
def notifyRound (spec : Nat → List Nat) : List Nat → List Nat → List Nat
  | [], _ => []
  | id :: rest, deleted =>
    if deleted.contains id then notifyRound spec rest deleted
    else id :: notifyRound spec rest (deleted ++ spec id)

/-- StorageService.loadFromStorage: guard on isClient, then a try/catch
around sessionStorage.getItem and JSON.parse.  getItem is modelled as
possibly failing (Except), JSON.parse as a partial function; every
failure path yields the caller's default.  The JS truthiness test on
the loaded string sends the empty string to the default as well. -/
def loadFromStorage {α : Type} (client : Bool)
    (getItem : String → Except Unit (Option String))
    (parse : String → Option α) (key : String) (deflt : α) : α :=
  if !client then deflt
  else
    match getItem key with
    | .error _ => deflt
    | .ok none => deflt
    | .ok (some saved) =>
      if saved = "" then deflt
      else
        match parse saved with
        | none => deflt
        | some v => v

/-- StorageService.saveToStorage: guard on isClient, then
sessionStorage.setItem(key, JSON.stringify(value)); returns the new
store contents. -/
def saveToStorage {α : Type} (client : Bool) (stringify : α → String)
    (store : String → Option String) (key : String) (value : α) :
    String → Option String :=
  if !client then store
  else fun k => if k = key then some (stringify value) else store k

/-- The note produced by updateNote for an existing id: the spread of
the old note and the patch, with updatedAt forced to now. -/
def mergedNote (now : Nat) (n : Note) (p : NotePatch) : Note :=
  { applyPatch n p with updatedAt := now }

/-- The needle occurs as a contiguous substring of the haystack. -/
def occursIn (needle hay : String) : Prop :=
  ∃ l r, hay.data = l ++ needle.data ++ r

theorem lexLe_total : ∀ a b : List Char, lexLe a b = true ∨ lexLe b a = true
  | [], _ => Or.inl rfl
  | _ :: _, [] => Or.inr rfl
  | a :: as, b :: bs => by
    rcases lt_trichotomy a b with h | h | h
    · left; simp [lexLe, h]
    · subst h
      rcases lexLe_total as bs with ih | ih
      · left; simp [lexLe, ih]
      · right; simp [lexLe, ih]
    · right; simp [lexLe, h]

theorem lexLe_trans :
    ∀ a b c : List Char, lexLe a b = true → lexLe b c = true → lexLe a c = true
  | [], _, _, _, _ => rfl
  | _ :: _, [], _, hab, _ => by simp [lexLe] at hab
  | _ :: _, _ :: _, [], _, hbc => by simp [lexLe] at hbc
  | a :: as, b :: bs, c :: cs, hab, hbc => by
    rcases lt_trichotomy a b with h1 | h1 | h1
    · rcases lt_trichotomy b c with h2 | h2 | h2
      · simp [lexLe, lt_trans h1 h2]
      · subst h2; simp [lexLe, h1]
      · simp [lexLe, asymm h2, h2] at hbc
    · subst h1
      rcases lt_trichotomy a c with h2 | h2 | h2
      · simp [lexLe, h2]
      · subst h2
        simp only [lexLe, lt_irrefl, if_false] at hab hbc ⊢
        exact lexLe_trans as bs cs hab hbc
      · simp [lexLe, asymm h2, h2] at hbc
    · simp [lexLe, asymm h1, h1] at hab

instance : IsTotal String strLe :=
  ⟨fun a b => lexLe_total a.data b.data⟩

instance : IsTrans String strLe :=
  ⟨fun a b c => lexLe_trans a.data b.data c.data⟩

instance (s : SortOption) : IsTotal Note (sortRel s) :=
  ⟨fun a b =>
    match s with
    | .dateDesc => Nat.le_total b.updatedAt a.updatedAt
    | .dateAsc => Nat.le_total a.updatedAt b.updatedAt
    | .titleAsc => lexLe_total a.title.data b.title.data
    | .titleDesc => lexLe_total b.title.data a.title.data⟩

instance (s : SortOption) : IsTrans Note (sortRel s) :=
  ⟨fun a b c =>
    match s with
    | .dateDesc => fun hab hbc => Nat.le_trans hbc hab
    | .dateAsc => fun hab hbc => Nat.le_trans hab hbc
    | .titleAsc => fun hab hbc => lexLe_trans a.title.data b.title.data c.title.data hab hbc
    | .titleDesc => fun hab hbc => lexLe_trans c.title.data b.title.data a.title.data hbc hab⟩

theorem leadsWith_iff : ∀ n h : List Char, leadsWith n h = true ↔ ∃ r, h = n ++ r
  | [], h => by simp [leadsWith]
  | a :: as, [] => by simp [leadsWith]
  | a :: as, b :: bs => by
    simp only [leadsWith, Bool.and_eq_true, beq_iff_eq, List.cons_append]
    constructor
    · rintro ⟨rfl, h2⟩
      obtain ⟨r, rfl⟩ := (leadsWith_iff as bs).mp h2
      exact ⟨r, rfl⟩
    · rintro ⟨r, hr⟩
      injection hr with h1 h2
      exact ⟨h1.symm, (leadsWith_iff as bs).mpr ⟨r, h2⟩⟩

theorem hasSubstr_iff : ∀ n h : List Char, hasSubstr n h = true ↔ ∃ l r, h = l ++ n ++ r
  | n, [] => by
    cases n with
    | nil => simp [hasSubstr]
    | cons a as => simp [hasSubstr]
  | n, c :: rest => by
    simp only [hasSubstr, Bool.or_eq_true]
    constructor
    · rintro (h1 | h2)
      · obtain ⟨r, hr⟩ := (leadsWith_iff n (c :: rest)).mp h1
        exact ⟨[], r, by simpa using hr⟩
      · obtain ⟨l, r, hr⟩ := (hasSubstr_iff n rest).mp h2
        exact ⟨c :: l, r, by simp [hr]⟩
    · rintro ⟨l, r, hr⟩
      cases l with
      | nil =>
        exact Or.inl ((leadsWith_iff n (c :: rest)).mpr ⟨r, by simpa using hr⟩)
      | cons x xs =>
        injection hr with h1 h2
        exact Or.inr ((hasSubstr_iff n rest).mpr ⟨xs, r, h2⟩)

theorem hasSubstr_nil_left : ∀ h : List Char, hasSubstr [] h = true
  | [] => rfl
  | _ :: _ => rfl

theorem strIncludes_iff (hay needle : String) :
    strIncludes hay needle = true ↔ occursIn needle hay :=
  hasSubstr_iff needle.data hay.data

theorem mem_tagFold : ∀ (tags acc : List String) (t : String),
    (t ∈ tags.foldl (fun a x => if a.contains x then a else a ++ [x]) acc) ↔
      t ∈ acc ∨ t ∈ tags
  | [], acc, t => by simp
  | x :: rest, acc, t => by
    simp only [List.foldl_cons]
    by_cases hx : acc.contains x
    · rw [if_pos hx, mem_tagFold rest acc t, List.mem_cons]
      have hx' : x ∈ acc := by simpa using hx
      constructor
      · rintro (h | h)
        · exact Or.inl h
        · exact Or.inr (Or.inr h)
      · rintro (h | rfl | h)
        · exact Or.inl h
        · exact Or.inl hx'
        · exact Or.inr h
    · rw [if_neg hx, mem_tagFold rest (acc ++ [x]) t, List.mem_append,
        List.mem_singleton, List.mem_cons]
      tauto

theorem nodup_tagFold : ∀ (tags acc : List String), acc.Nodup →
    (tags.foldl (fun a x => if a.contains x then a else a ++ [x]) acc).Nodup
  | [], _, h => by simpa using h
  | x :: rest, acc, h => by
    simp only [List.foldl_cons]
    by_cases hx : acc.contains x
    · rw [if_pos hx]
      exact nodup_tagFold rest acc h
    · rw [if_neg hx]
      refine nodup_tagFold rest (acc ++ [x]) ?_
      refine List.Nodup.append h (List.nodup_singleton x) ?_
      intro a ha hax
      rw [List.mem_singleton] at hax
      subst hax
      exact hx (by simpa using ha)

theorem mem_dedupFold : ∀ (notes : List Note) (acc : List String) (t : String),
    (t ∈ notes.foldl
        (fun acc n => n.tags.foldl (fun a x => if a.contains x then a else a ++ [x]) acc)
        acc) ↔
      t ∈ acc ∨ ∃ n ∈ notes, t ∈ n.tags
  | [], acc, t => by simp
  | m :: rest, acc, t => by
    simp only [List.foldl_cons]
    rw [mem_dedupFold rest _ t, mem_tagFold]
    simp only [List.mem_cons, exists_eq_or_imp]
    tauto

theorem nodup_dedupFold : ∀ (notes : List Note) (acc : List String), acc.Nodup →
    (notes.foldl
        (fun acc n => n.tags.foldl (fun a x => if a.contains x then a else a ++ [x]) acc)
        acc).Nodup
  | [], _, h => by simpa using h
  | m :: rest, acc, h => by
    simp only [List.foldl_cons]
    exact nodup_dedupFold rest _ (nodup_tagFold m.tags acc h)

theorem find?_decomp {α : Type} {p : α → Bool} :
    ∀ {l : List α} {a : α}, l.find? p = some a →
      p a = true ∧ ∃ pre post, l = pre ++ a :: post ∧ ∀ m ∈ pre, p m = false
  | [], a, h => by simp [List.find?] at h
  | b :: rest, a, h => by
    by_cases hb : p b = true
    · rw [List.find?_cons_of_pos rest hb] at h
      injection h with h1
      subst h1
      exact ⟨hb, [], rest, rfl, by simp⟩
    · rw [List.find?_cons_of_neg rest hb] at h
      obtain ⟨hpa, pre, post, hl, hpre⟩ := find?_decomp h
      refine ⟨hpa, b :: pre, post, by rw [hl, List.cons_append], ?_⟩
      intro m hm
      rcases List.mem_cons.mp hm with rfl | hm
      · exact Bool.not_eq_true _ ▸ by simpa using hb
      · exact hpre m hm

theorem setFirst_append (id : String) (n2 m : Note) :
    ∀ (pre post : List Note), (m.id == id) = true → (∀ x ∈ pre, (x.id == id) = false) →
      setFirst id n2 (pre ++ m :: post) = pre ++ n2 :: post
  | [], post, hm, _ => by simp [setFirst, hm]
  | x :: pre, post, hm, hpre => by
    have hx : (x.id == id) = false := hpre x (List.mem_cons_self x pre)
    simp only [List.cons_append, setFirst, hx, Bool.false_eq_true, if_false, List.append_eq]
    rw [setFirst_append id n2 m pre post hm fun y hy => hpre y (List.mem_cons_of_mem x hy)]

theorem updateFirst_append (now : Nat) (id : String) (p : NotePatch) (m : Note) :
    ∀ (pre post : List Note), (m.id == id) = true → (∀ x ∈ pre, (x.id == id) = false) →
      updateFirst now id p (pre ++ m :: post) =
        (some (mergedNote now m p), pre ++ mergedNote now m p :: post)
  | [], post, hm, _ => by simp [updateFirst, hm, mergedNote]
  | x :: pre, post, hm, hpre => by
    have hx : (x.id == id) = false := hpre x (List.mem_cons_self x pre)
    simp only [List.cons_append, updateFirst, hx, Bool.false_eq_true, if_false, List.append_eq]
    rw [updateFirst_append now id p m pre post hm fun y hy => hpre y (List.mem_cons_of_mem x hy)]

theorem updateFirst_not_found (now : Nat) (id : String) (p : NotePatch) :
    ∀ notes : List Note, (∀ m ∈ notes, (m.id == id) = false) →
      updateFirst now id p notes = (none, notes)
  | [], _ => rfl
  | n :: rest, h => by
    have hn : (n.id == id) = false := h n (List.mem_cons_self n rest)
    simp only [updateFirst, hn, Bool.false_eq_true, if_false]
    rw [updateFirst_not_found now id p rest fun m hm => h m (List.mem_cons_of_mem n hm)]

theorem notifyRound_sublist (spec : Nat → List Nat) :
    ∀ (L deleted : List Nat), (notifyRound spec L deleted).Sublist L
  | [], _ => List.Sublist.refl []
  | id :: rest, deleted => by
    by_cases h : deleted.contains id = true
    · simp only [notifyRound, h, if_true]
      exact List.Sublist.cons id (notifyRound_sublist spec rest deleted)
    · simp only [notifyRound, h, if_false]
      exact List.Sublist.cons₂ id (notifyRound_sublist spec rest (deleted ++ spec id))

theorem notifyRound_all (spec : Nat → List Nat) :
    ∀ L : List Nat, (∀ id ∈ L, spec id = []) → notifyRound spec L [] = L
  | [], _ => rfl
  | id :: rest, h => by
    have h0 : (([] : List Nat).contains id) = false := rfl
    simp only [notifyRound, h0, Bool.false_eq_true, if_false,
      h id (List.mem_cons_self id rest), List.nil_append]
    rw [notifyRound_all spec rest fun x hx => h x (List.mem_cons_of_mem id hx)]

def tagNoteA : Note :=
  { id := "n1", title := "A", content := "", color := .yellow, isPinned := false,
    tags := ["work"], createdAt := 0, updatedAt := 0 }

def tagNoteB : Note :=
  { id := "n2", title := "B", content := "", color := .green, isPinned := false,
    tags := ["Work", "home"], createdAt := 0, updatedAt := 0 }

def noteC2 : Note :=
  { id := "a", title := "t", content := "", color := .yellow, isPinned := false,
    tags := [], createdAt := 1, updatedAt := 1 }

def patchC2 : NotePatch :=
  { id := some "b", updatedAt := some 999 }

def blankDraft : NoteDraft :=
  { title := "  ", content := "", color := .yellow, isPinned := false, tags := [] }

def clashNote : Note :=
  { id := "note_5_abc", title := "t", content := "", color := .yellow, isPinned := false,
    tags := [], createdAt := 0, updatedAt := 0 }

def freshDraft : NoteDraft :=
  { title := "t2", content := "", color := .blue, isPinned := false, tags := [] }

def pinnedNote : Note :=
  { id := "p1", title := "P", content := "", color := .pink, isPinned := true,
    tags := [], createdAt := 0, updatedAt := 0 }

/-- Claim C1, counterexample: getAllTags performs no case normalization.
On a collection carrying tags work, Work and home it returns
[Work, home, work] (code-point order, W before h), not [home, work]. -/
theorem getAllTags_cex :
    getAllTags [tagNoteA, tagNoteB] = ["Work", "home", "work"] ∧
    getAllTags [tagNoteA, tagNoteB] ≠ ["home", "work"] := by
  decide

/-- Claim C1 (amended): getAllTags returns the union of all notes' tags
deduplicated exactly (case-sensitively, no case normalization) and
sorted in ascending lexicographic (code-point) order. -/
theorem getAllTags_spec (notes : List Note) :
    List.Sorted strLe (getAllTags notes) ∧ (getAllTags notes).Nodup ∧
    ∀ t, t ∈ getAllTags notes ↔ ∃ n ∈ notes, t ∈ n.tags := by
  refine ⟨List.sorted_insertionSort strLe _, ?_, ?_⟩
  · exact ((List.perm_insertionSort strLe _).nodup_iff).mpr
      (nodup_dedupFold notes [] List.nodup_nil)
  · intro t
    rw [getAllTags, List.mem_insertionSort, dedupTags, mem_dedupFold]
    simp

/-- Claim C2, counterexample: updateNote merges any supplied field, so a
patch carrying an id does change the note's id, and a supplied
updatedAt is overridden by now. -/
theorem updateNote_cex :
    ((updateNote 5 [noteC2] "a" patchC2).1.map fun n => n.id) = some "b" ∧
    ((updateNote 5 [noteC2] "a" patchC2).1.map fun n => n.updatedAt) = some 5 := by
  decide

/-- Claim C2 (amended): for a patch that supplies neither id nor
createdAt, updateNote on an existing note's id preserves id and
createdAt, sets updatedAt to now, merges every supplied field over the
existing one, and replaces the note in place. -/
theorem updateNote_frame (now : Nat) (pre post : List Note) (n : Note) (p : NotePatch)
    (hpre : ∀ m ∈ pre, (m.id == n.id) = false)
    (hid : p.id = none) (hcr : p.createdAt = none) :
    updateNote now (pre ++ n :: post) n.id p =
      (some (mergedNote now n p), pre ++ mergedNote now n p :: post) ∧
    (mergedNote now n p).id = n.id ∧
    (mergedNote now n p).createdAt = n.createdAt ∧
    (mergedNote now n p).updatedAt = now ∧
    (∀ t, p.title = some t → (mergedNote now n p).title = t) ∧
    (∀ c, p.content = some c → (mergedNote now n p).content = c) ∧
    (∀ c, p.color = some c → (mergedNote now n p).color = c) ∧
    (∀ b, p.isPinned = some b → (mergedNote now n p).isPinned = b) ∧
    (∀ ts, p.tags = some ts → (mergedNote now n p).tags = ts) := by
  refine ⟨updateFirst_append now n.id p n pre post (by simp) hpre, ?_, ?_, rfl,
    ?_, ?_, ?_, ?_, ?_⟩
  · simp [mergedNote, applyPatch, hid]
  · simp [mergedNote, applyPatch, hcr]
  · intro t ht; simp [mergedNote, applyPatch, ht]
  · intro c hc; simp [mergedNote, applyPatch, hc]
  · intro c hc; simp [mergedNote, applyPatch, hc]
  · intro b hb; simp [mergedNote, applyPatch, hb]
  · intro ts hts; simp [mergedNote, applyPatch, hts]

theorem updateNote_frame_witness :
    updateNote 7 ([] ++ noteC2 :: []) noteC2.id { title := some "new" } =
      (some (mergedNote 7 noteC2 { title := some "new" }),
        [] ++ mergedNote 7 noteC2 { title := some "new" } :: []) :=
  (updateNote_frame 7 [] [] noteC2 { title := some "new" } (by simp) rfl rfl).1

/-- Claim C3, counterexample: the controller's updateNote calls notify()
unconditionally, so an update on an absent id still fires a
notification round and persists the unchanged collection. -/
theorem ctrlUpdateNote_cex :
    (ctrlUpdateNote 0 "missing" {} ⟨[], 0, []⟩).notes = [] ∧
    (ctrlUpdateNote 0 "missing" {} ⟨[], 0, []⟩).notifyCount = 1 ∧
    (ctrlUpdateNote 0 "missing" {} ⟨[], 0, []⟩).persistLog = [[]] := by
  decide

/-- Claim C3 (amended): for an id not present in the collection, the
model update returns not-found (no exception) and the collection is
unchanged, but the controller still notifies observers and persists the
unchanged collection: notification and persistence are unconditional. -/
theorem ctrlUpdateNote_unknown_id (now : Nat) (id : String) (p : NotePatch)
    (st : CtrlState) (h : ∀ m ∈ st.notes, m.id ≠ id) :
    (updateNote now st.notes id p).1 = none ∧
    (ctrlUpdateNote now id p st).notes = st.notes ∧
    (ctrlUpdateNote now id p st).notifyCount = st.notifyCount + 1 ∧
    (ctrlUpdateNote now id p st).persistLog = st.persistLog ++ [st.notes] := by
  have hfix : updateFirst now id p st.notes = (none, st.notes) :=
    updateFirst_not_found now id p st.notes fun m hm =>
      beq_eq_false_iff_ne.mpr (h m hm)
  refine ⟨?_, ?_, rfl, ?_⟩
  · rw [updateNote, hfix]
  · show (updateNote now st.notes id p).2 = st.notes
    rw [updateNote, hfix]
  · show st.persistLog ++ [(updateNote now st.notes id p).2] = st.persistLog ++ [st.notes]
    rw [updateNote, hfix]

theorem ctrlUpdateNote_unknown_id_witness :
    (ctrlUpdateNote 3 "missing" {} ⟨[tagNoteA], 2, []⟩).notes = [tagNoteA] :=
  (ctrlUpdateNote_unknown_id 3 "missing" {} ⟨[tagNoteA], 2, []⟩ (by decide)).2.1

/-- Claim C4: sortNotes splits the input into the pinned and unpinned
subsequences (filter preserves relative order), stably sorts each by the
chosen comparator, and concatenates pinned-then-unpinned, so every
pinned note precedes every unpinned note and each part is sorted. -/
theorem sortNotes_pinned_first (notes : List Note) (s : SortOption) :
    ∃ p u, sortNotes notes s = p ++ u ∧
      p.Perm (notes.filter fun n => n.isPinned) ∧
      u.Perm (notes.filter fun n => !n.isPinned) ∧
      p.all (fun n => n.isPinned) = true ∧
      u.all (fun n => !n.isPinned) = true ∧
      List.Sorted (sortRel s) p ∧ List.Sorted (sortRel s) u := by
  refine ⟨sortFunction s (notes.filter fun n => n.isPinned),
    sortFunction s (notes.filter fun n => !n.isPinned), rfl,
    List.perm_insertionSort _ _, List.perm_insertionSort _ _, ?_, ?_,
    List.sorted_insertionSort _ _, List.sorted_insertionSort _ _⟩
  · rw [List.all_eq_true]
    intro n hn
    exact (List.mem_filter.mp ((List.mem_insertionSort _).mp hn)).2
  · rw [List.all_eq_true]
    intro n hn
    exact (List.mem_filter.mp ((List.mem_insertionSort _).mp hn)).2

/-- Claim C5, counterexample: the model's addNote performs no
validation: a whitespace-only title is inserted at the front and the
collection grows. -/
theorem addNote_cex :
    (addNote 5 "abc" blankDraft []).2.length = 1 ∧
    jsTrim ((addNote 5 "abc" blankDraft []).1.title) = "" ∧
    (addNote 5 "abc" blankDraft []).2 = [(addNote 5 "abc" blankDraft []).1] := by
  decide

/-- Claim C5 (amended): rejection of blank titles happens in the note
editor, not in the model: handleSubmit returns none (no save, so the
collection is untouched) when the trimmed title is empty, and any draft
it emits carries the trimmed, nonempty title. -/
theorem handleSubmit_blank_title (title content : String) (color : NoteColor)
    (notePinned : Bool) (tags : List String) :
    (jsTrim title = "" → handleSubmit title content color notePinned tags = none) ∧
    ∀ d, handleSubmit title content color notePinned tags = some d →
      d.title = jsTrim title ∧ d.title ≠ "" := by
  constructor
  · intro h
    simp [handleSubmit, h]
  · intro d hd
    by_cases h : jsTrim title = ""
    · simp [handleSubmit, h] at hd
    · rw [handleSubmit, if_neg h] at hd
      injection hd with hd
      subst hd
      exact ⟨rfl, h⟩

theorem handleSubmit_blank_title_witness :
    handleSubmit "  " "c" NoteColor.yellow false [] = none :=
  (handleSubmit_blank_title "  " "c" NoteColor.yellow false []).1 (by decide)

/-- Claim C6: searching with the empty term returns the full collection,
and search returns exactly the notes in which the lowered term occurs
as a substring of the lowered title, the lowered content, or at least
one lowered tag. -/
theorem searchNotes_spec (notes : List Note) (term : String) :
    searchNotes notes "" = notes ∧
    ∀ n, n ∈ searchNotes notes term ↔
      n ∈ notes ∧
        (occursIn (lowerStr term) (lowerStr n.title) ∨
          occursIn (lowerStr term) (lowerStr n.content) ∨
          ∃ tag ∈ n.tags, occursIn (lowerStr term) (lowerStr tag)) := by
  constructor
  · apply List.filter_eq_self.mpr
    intro n _
    have h1 : ∀ hay : String, strIncludes hay (lowerStr "") = true := fun hay => by
      show hasSubstr (lowerStr "").data hay.data = true
      have h0 : (lowerStr "").data = [] := rfl
      rw [h0]
      exact hasSubstr_nil_left hay.data
    show noteMatches "" n = true
    unfold noteMatches
    simp [h1]
  · intro n
    simp only [searchNotes, List.mem_filter, noteMatches, Bool.or_eq_true,
      List.any_eq_true, strIncludes_iff, or_assoc]

/-- Claim C7, counterexample: addNote does not check existing ids; when
the collection already holds a note whose id equals the generated
timestamp-plus-suffix string, the new note's id collides with it. -/
theorem addNote_id_collision_cex :
    (addNote 5 "abc" freshDraft [clashNote]).1.id = clashNote.id ∧
    clashNote ∈ (addNote 5 "abc" freshDraft [clashNote]).2 := by
  decide

/-- Claim C7 (amended): whenever the generated id string is not already
present, addNote produces a note whose id differs from every existing
id, whose createdAt equals its updatedAt, inserted at the front. -/
theorem addNote_spec (now : Nat) (rand : String) (draft : NoteDraft) (notes : List Note)
    (h : ∀ n ∈ notes, n.id ≠ makeId now rand) :
    (addNote now rand draft notes).1.id ∉ notes.map (fun n => n.id) ∧
    (addNote now rand draft notes).1.createdAt = (addNote now rand draft notes).1.updatedAt ∧
    (addNote now rand draft notes).2 = (addNote now rand draft notes).1 :: notes := by
  refine ⟨?_, rfl, rfl⟩
  intro hmem
  rw [List.mem_map] at hmem
  obtain ⟨n, hn, hid⟩ := hmem
  exact h n hn hid

theorem addNote_spec_witness :
    (addNote 6 "xyz" freshDraft [clashNote]).2 =
      (addNote 6 "xyz" freshDraft [clashNote]).1 :: [clashNote] :=
  (addNote_spec 6 "xyz" freshDraft [clashNote] (by decide)).2.2

/-- Claim C8, counterexample: the listener Set is iterated live, not as
a snapshot: when the first handler unsubscribes the second, the second
handler, though subscribed when the round started and not yet invoked,
is skipped. -/
theorem notifyRound_cex :
    notifyRound (fun i => if i == 0 then [1] else []) [0, 1] [] = [0] ∧
    1 ∉ notifyRound (fun i => if i == 0 then [1] else []) [0, 1] [] := by
  decide

/-- Claim C8 (amended): a notification round iterates the live
subscriber set in insertion order: only handlers subscribed at the
start can run (the log is a sublist of the starting list), and when no
running handler unsubscribes anyone, exactly the starting subscribers
run, in order; a not-yet-invoked handler unsubscribed mid-round is
skipped. -/
theorem notifyRound_spec (spec : Nat → List Nat) (L : List Nat) :
    (notifyRound spec L []).Sublist L ∧
    ((∀ id ∈ L, spec id = []) → notifyRound spec L [] = L) :=
  ⟨notifyRound_sublist spec L [], notifyRound_all spec L⟩

theorem notifyRound_spec_witness :
    notifyRound (fun _ => []) [4, 7] [] = [4, 7] :=
  (notifyRound_spec (fun _ => []) [4, 7]).2 (by intro id _; rfl)

/-- Claim C9: loadFromStorage never propagates an error: it yields the
default when there is no client medium, when the storage read fails,
when no value is stored, or when deserialization fails; and it yields
the saved value back after a save whose serialization round-trips. -/
theorem loadFromStorage_spec {α : Type} (getItem : String → Except Unit (Option String))
    (parse : String → Option α) (stringify : α → String)
    (store : String → Option String) (key : String) (deflt v : α) :
    loadFromStorage false getItem parse key deflt = deflt ∧
    (∀ e : Unit, getItem key = Except.error e →
      loadFromStorage true getItem parse key deflt = deflt) ∧
    (getItem key = Except.ok none →
      loadFromStorage true getItem parse key deflt = deflt) ∧
    (∀ s : String, getItem key = Except.ok (some s) → parse s = none →
      loadFromStorage true getItem parse key deflt = deflt) ∧
    (parse (stringify v) = some v → stringify v ≠ "" →
      loadFromStorage true
        (fun k => Except.ok (saveToStorage true stringify store key v k))
        parse key deflt = v) := by
  refine ⟨rfl, ?_, ?_, ?_, ?_⟩
  · intro e he
    simp [loadFromStorage, he]
  · intro he
    simp [loadFromStorage, he]
  · intro s hs hp
    simp [loadFromStorage, hs, hp]
  · intro hp hne
    simp [loadFromStorage, saveToStorage, hp, hne]

theorem loadFromStorage_spec_witness :
    loadFromStorage true
      (fun k => Except.ok
        (saveToStorage true (fun _ : Nat => "x") (fun _ => none) "notes_data" 42 k))
      (fun s => if s = "x" then some 42 else none) "notes_data" 0 = 42 :=
  (loadFromStorage_spec
    (fun k => Except.ok
      (saveToStorage true (fun _ : Nat => "x") (fun _ => none) "notes_data" 42 k))
    (fun s => if s = "x" then some 42 else none) (fun _ : Nat => "x") (fun _ => none)
    "notes_data" 0 42).2.2.2.2 (by decide) (by decide)

/-- Claim C10: togglePin on a pinned note clears isPinned, refreshes
updatedAt, and replaces the note at its current position, leaving the
relative order of all notes unchanged; relocation to the front happens
only on the unpinned-to-pinned transition. -/
theorem togglePin_spec (now : Nat) (notes : List Note) (id : String) (n : Note)
    (h : notes.find? (fun m => m.id == id) = some n) :
    (togglePin now notes id).1 = some { n with isPinned := !n.isPinned, updatedAt := now } ∧
    (n.isPinned = true →
      ∃ pre post, notes = pre ++ n :: post ∧ (∀ m ∈ pre, (m.id == id) = false) ∧
        (togglePin now notes id).2 =
          pre ++ { n with isPinned := false, updatedAt := now } :: post) ∧
    (n.isPinned = false →
      (togglePin now notes id).2 =
        { n with isPinned := true, updatedAt := now } ::
          notes.filter fun m => !(m.id == id)) := by
  obtain ⟨hpn, pre, post, hnotes, hpre⟩ := find?_decomp h
  refine ⟨?_, ?_, ?_⟩
  · cases hp : n.isPinned <;> simp [togglePin, h, hp]
  · intro hpin
    refine ⟨pre, post, hnotes, hpre, ?_⟩
    have h2 : (togglePin now notes id).2 =
        setFirst id { n with isPinned := false, updatedAt := now } notes := by
      simp [togglePin, h, hpin]
    rw [h2, hnotes]
    exact setFirst_append id { n with isPinned := false, updatedAt := now } n pre post hpn hpre
  · intro hpin
    simp [togglePin, h, hpin]

theorem togglePin_spec_witness :
    (togglePin 9 [pinnedNote, tagNoteA] "p1").1 =
      some { pinnedNote with isPinned := !pinnedNote.isPinned, updatedAt := 9 } :=
  (togglePin_spec 9 [pinnedNote, tagNoteA] "p1" pinnedNote (by decide)).1
